import Mathlib

/-!
# Verification of the phrasecards local store and playback controller

Shallow embedding of `src/app.js`: the IndexedDB-backed card repository
(`saveCard`, `deleteCard`, `getCard`, `getBlob`), the two UI save handlers
that validate trim windows, the bounded-segment playback monitor installed
by the "Play Trimmed Section" button, and the max-tempo aggregate computed
in `renderCardList`.

Modelling conventions:
- JS numbers used for seconds are modelled as `Rat`; timestamps
  (`Date.now()`) as `Int`; audio payload bytes as `List Nat`.
- The two IndexedDB object stores (`cards`, keyed by the card's `id`
  key path, and `blobs`, keyed externally) are total functions
  `String → Option _`.
- An IndexedDB read-write transaction is a list of store operations that
  commits atomically: `runTx` applies all of them, or none when the commit
  fails, in which case the transaction rejects (`TransactionAborted`) and
  the store is left in its pre-transaction state.
- `saveCard` mutates its `card` argument in place (sets `audioBlobId` and
  `updatedAt` before the transaction settles); the embedding returns the
  mutated card alongside the store outcome.
-/

namespace Phrasecards

/-- Mastery statuses are stored as strings in the JS objects. -/
structure Mastery where
  circleOfFifths : String
  chromatic : String
  deriving Repr, DecidableEq

/-- One practice session record, as built in `showAddSessionForm`. -/
structure Session where
  id : String
  cardId : String
  date : Int
  mode : String
  temposAchieved : List Int
  errorRate : Rat
  notes : Option String
  deriving Repr, DecidableEq

/-- Trim window of a card: `card.trim` with fields `startSec`, `endSec`. -/
structure Trim where
  startSec : Rat
  endSec : Rat
  deriving Repr, DecidableEq

/-- A card record, with the fields constructed in `showAddView`. -/
structure Card where
  id : String
  title : String
  source : Option String
  createdAt : Int
  updatedAt : Int
  audioBlobId : String
  trim : Trim
  bpmTarget : Option Int
  comments : Option String
  tags : List String
  mastery : Mastery
  sessions : List Session
  deriving Repr, DecidableEq

/-- Audio payload bytes (the `Blob` stored in the `blobs` object store). -/
abbrev AudioBytes := List Nat

/-- The database state: the `cards` store (key path `id`) and the `blobs`
store (keyed externally by card id). -/
structure Store where
  cards : String → Option Card
  blobs : String → Option AudioBytes

/-- The freshly created database: both object stores empty. -/
def emptyStore : Store := ⟨fun _ => none, fun _ => none⟩

/-- One operation queued inside a read-write transaction. -/
inductive TxOp where
  | putCard (c : Card)
  | putBlob (key : String) (b : AudioBytes)
  | delCard (id : String)
  | delBlob (id : String)
  deriving Repr

/-- Effect of a single queued operation on the database state.
`cards` uses the key path `id`, so `putCard` stores under `c.id`. -/
def applyOp (st : Store) : TxOp → Store
  | .putCard c => { st with cards := fun k => if k = c.id then some c else st.cards k }
  | .putBlob key b => { st with blobs := fun k => if k = key then some b else st.blobs k }
  | .delCard i => { st with cards := fun k => if k = i then none else st.cards k }
  | .delBlob i => { st with blobs := fun k => if k = i then none else st.blobs k }

/-- Repository-level failure: the transaction's `onerror` rejection. -/
inductive StoreErr where
  | TransactionAborted
  deriving Repr, DecidableEq

/-- An IndexedDB read-write transaction: all queued operations commit
together (`oncomplete`), or none of them do and the state is rolled back
to the pre-transaction state (`onerror`). `commit` is the simulated
commit outcome. -/
def runTx (commit : Bool) (ops : List TxOp) (st : Store) : Store × Option StoreErr :=
  if commit then (ops.foldl applyOp st, none)
  else (st, some .TransactionAborted)

/-- `getCard(id)` — a readonly lookup in the `cards` store. -/
def getCard (st : Store) (i : String) : Option Card := st.cards i

/-- `getBlob(id)` — a readonly lookup in the `blobs` store. -/
def getBlob (st : Store) (i : String) : Option AudioBytes := st.blobs i

/-- `saveCard(card, blob)` from `src/app.js` lines 109–125: one read-write
transaction over both stores; when a blob is supplied it is put under
`card.id` and `card.audioBlobId` is set to that key; `card.updatedAt` is
always set to `Date.now()` (the `now` parameter); then the card is put.
The mutated in-memory card is returned in the first component regardless
of the commit outcome. -/
def saveCard (card : Card) (blob : Option AudioBytes) (now : Int) (commit : Bool)
    (st : Store) : Card × Store × Option StoreErr :=
  let card1 := match blob with
    | some _ => { card with audioBlobId := card.id }
    | none => card
  let card2 := { card1 with updatedAt := now }
  let ops := (match blob with
    | some b => [TxOp.putBlob card.id b]
    | none => []) ++ [TxOp.putCard card2]
  let r := runTx commit ops st
  (card2, r.1, r.2)

/-- `deleteCard(id)` from `src/app.js` lines 127–137: one read-write
transaction deleting the card and its blob together. -/
def deleteCard (i : String) (commit : Bool) (st : Store) : Store × Option StoreErr :=
  runTx commit [TxOp.delCard i, TxOp.delBlob i] st

/-- The card-construction-and-validation part of the `saveBtn` click handler
in `showAddView` (`src/app.js` lines 378–420): validates the parsed trim
values, and when valid builds a fresh card (with `audioBlobId` initially
empty and an empty session list) and saves it together with the selected
file. Returns the store after the handler, the transaction error if any,
and the card passed to `saveCard` (after `saveCard`'s in-place mutation);
`none` components when validation rejects the input before any mutation. -/
def addViewSaveBtn (newId : String) (title : String) (source : Option String)
    (bpmTarget : Option Int) (comments : Option String) (tags : List String)
    (mastery : Mastery) (startSecVal endSecVal : Rat) (selectedFile : AudioBytes)
    (now : Int) (commit : Bool) (st : Store) :
    Store × Option StoreErr × Option Card :=
  if startSecVal < 0 ∨ endSecVal ≤ 0 ∨ endSecVal ≤ startSecVal then
    (st, none, none)
  else
    let card : Card :=
      { id := newId
        title := title
        source := source
        createdAt := now
        updatedAt := now
        audioBlobId := ""
        trim := { startSec := startSecVal, endSec := endSecVal }
        bpmTarget := bpmTarget
        comments := comments
        tags := tags
        mastery := mastery
        sessions := [] }
    let r := saveCard card (some selectedFile) now commit st
    (r.2.1, r.2.2, some r.1)

/-- The `saveMetaBtn` click handler in `viewCard` (`src/app.js` lines
655–681): rejects when `newEnd ≤ newStart` (alert, no mutation); otherwise
overwrites the metadata fields and the trim on the card and saves it with
no blob. Same result shape as `addViewSaveBtn`. -/
def saveMetaBtn (card : Card) (newStart newEnd : Rat) (newTitle : String)
    (newSource : Option String) (newBpm : Option Int) (newComments : Option String)
    (newTags : List String) (newMastery : Mastery) (now : Int) (commit : Bool)
    (st : Store) : Store × Option StoreErr × Option Card :=
  if newEnd ≤ newStart then
    (st, none, none)
  else
    let card2 : Card :=
      { card with
        title := newTitle
        source := newSource
        bpmTarget := newBpm
        comments := newComments
        tags := newTags
        mastery := newMastery
        trim := { startSec := newStart, endSec := newEnd } }
    let r := saveCard card2 none now commit st
    (r.2.1, r.2.2, some r.1)

/-- The max-tempo aggregate computed per card in `renderCardList`
(`src/app.js` lines 181–192): starts at 0; for each session takes
`Math.max(...sess.temposAchieved, 0)` and keeps it when it exceeds the
running maximum. -/
def maxTempoOf (sessions : List Session) : Int :=
  sessions.foldl
    (fun maxTempo sess =>
      let localMax := sess.temposAchieved.foldl max 0
      if localMax > maxTempo then localMax else maxTempo)
    0

/-- Modelled from the spec: the derived read "max tempo for a card = the
maximum value across the union of all `temposAchieved` sequences over all
its sessions, or 0 if none recorded", written from the spec's words for
comparison with `maxTempoOf`. -/
def maxTempoSpec (sessions : List Session) : Int :=
  ((sessions.map Session.temposAchieved).flatten).max?.getD 0

/-- The caller-supplied media handle (the `<audio>` element as the playback
controller sees it): playhead position, whether playback is running, and
whether the `timeupdate` monitor callback `onTime` is currently
registered. -/
structure AudioHandle where
  currentTime : Rat
  playing : Bool
  monitorRegistered : Bool
  deriving Repr, DecidableEq

/-- Playback validation failure: the `alert('Invalid trim times.')` early
return. -/
inductive PlayErr where
  | InvalidRange
  deriving Repr, DecidableEq

/-- The `playTrimBtn` click handler in `viewCard` (`src/app.js` lines
637–654): rejects when `endT ≤ startT`, leaving the handle untouched;
otherwise seeks to `startT`, starts playback, and registers the `onTime`
monitor. -/
def startPlayback (h : AudioHandle) (startT endT : Rat) :
    AudioHandle × Option PlayErr :=
  if endT ≤ startT then
    (h, some .InvalidRange)
  else
    ({ h with currentTime := startT, playing := true, monitorRegistered := true },
      none)

/-- Body of the `onTime` monitor (`src/app.js` lines 647–652): when the
sampled position has reached `endT`, pause playback and deregister the
listener; otherwise do nothing. -/
def onTimeStep (endT : Rat) (h : AudioHandle) : AudioHandle :=
  if endT ≤ h.currentTime then
    { h with playing := false, monitorRegistered := false }
  else h

/-- One `timeupdate` scheduling tick of the media engine: the playhead
moves to `pos`, then the registered listeners fire — `onTime` runs only
while it is still registered. -/
def tick (endT : Rat) (h : AudioHandle) (pos : Rat) : AudioHandle :=
  let h1 := { h with currentTime := pos }
  if h1.monitorRegistered then onTimeStep endT h1 else h1

/-- A whole monitored run: the sequence of sampled playhead positions
delivered by successive `timeupdate` ticks. -/
def runTicks (endT : Rat) (h : AudioHandle) (ps : List Rat) : AudioHandle :=
  ps.foldl (tick endT) h

/-- Tearing the consumer down removes the `timeupdate` listener without
pausing or seeking (`removeEventListener`): the cancel path of the
playback controller. -/
def cancelPlayback (h : AudioHandle) : AudioHandle :=
  { h with monitorRegistered := false }

/-! ## Concrete fixtures used by witnesses and counterexamples -/

/-- A concrete freshly built card, as `showAddView` would construct it
(`audioBlobId` empty, no sessions). -/
def card0 : Card :=
  { id := "a"
    title := "t"
    source := none
    createdAt := 0
    updatedAt := 0
    audioBlobId := ""
    trim := { startSec := 0, endSec := 5 }
    bpmTarget := none
    comments := none
    tags := []
    mastery := { circleOfFifths := "not_started", chromatic := "not_started" }
    sessions := [] }

/-- A concrete idle media handle. -/
def handle0 : AudioHandle :=
  { currentTime := 0, playing := false, monitorRegistered := false }

/-- A concrete handle whose monitor has been torn down while audio still
plays (the `Cancelled` situation). -/
def handleCancelled : AudioHandle :=
  { currentTime := 3, playing := true, monitorRegistered := false }

/-! ## Store-layer facts shared between claims -/

theorem saveCard_someBlob_cards (c : Card) (b : AudioBytes) (now : Int) (st : Store) :
    (saveCard c (some b) now true st).2.1.cards =
      fun k => if k = c.id then some { c with audioBlobId := c.id, updatedAt := now }
        else st.cards k := rfl

theorem saveCard_someBlob_blobs (c : Card) (b : AudioBytes) (now : Int) (st : Store) :
    (saveCard c (some b) now true st).2.1.blobs =
      fun k => if k = c.id then some b else st.blobs k := rfl

theorem saveCard_noBlob_cards (c : Card) (now : Int) (st : Store) :
    (saveCard c none now true st).2.1.cards =
      fun k => if k = c.id then some { c with updatedAt := now } else st.cards k := rfl

theorem saveCard_noBlob_blobs (c : Card) (now : Int) (st : Store) :
    (saveCard c none now true st).2.1.blobs = st.blobs := rfl

theorem deleteCard_cards (i : String) (st : Store) :
    (deleteCard i true st).1.cards = fun k => if k = i then none else st.cards k := rfl

theorem deleteCard_blobs (i : String) (st : Store) :
    (deleteCard i true st).1.blobs = fun k => if k = i then none else st.blobs k := rfl

/-- Claim C1 — save/get round-trip, as the claim states it: after
`save(c, p)` completes, `get(c.id)` would return a record equal to `c` in
every field except `updatedAt`. This is false on the code: `saveCard` also
rewrites `audioBlobId` to `c.id` when a payload is supplied, refuted here
on a concrete card whose `audioBlobId` is empty. -/
theorem save_get_roundtrip_claim_counterexample :
    ¬ (∀ (c : Card) (p : AudioBytes) (now : Int) (st : Store) (r : Card),
        getCard (saveCard c (some p) now true st).2.1 c.id = some r →
        r = { c with updatedAt := r.updatedAt }) := by
  intro hclaim
  have h := hclaim card0 [1, 2] 5 emptyStore
    { card0 with audioBlobId := card0.id, updatedAt := 5 } (by decide)
  have := congrArg Card.audioBlobId h
  simp [card0] at this

/-- Claim C1 (amended) — save/get round-trip: after `save(c, p)` completes,
`get(c.id)` returns a record equal to `c` in every field except
`updatedAt`, which is set to the save time (≥ any pre-save instant `t0`),
and `audioBlobId`, which is set to `c.id`; and `getPayload(c.id)` returns
bytes equal to `p`. -/
theorem save_get_roundtrip (c : Card) (p : AudioBytes) (st : Store) (now t0 : Int)
    (hpre : t0 ≤ now) :
    getCard (saveCard c (some p) now true st).2.1 c.id
        = some { c with audioBlobId := c.id, updatedAt := now } ∧
    t0 ≤ ({ c with audioBlobId := c.id, updatedAt := now } : Card).updatedAt ∧
    getBlob (saveCard c (some p) now true st).2.1 c.id = some p ∧
    (saveCard c (some p) now true st).2.2 = none := by
  refine ⟨?_, by simpa using hpre, ?_, rfl⟩
  · show (saveCard c (some p) now true st).2.1.cards c.id = _
    rw [saveCard_someBlob_cards]
    simp
  · show (saveCard c (some p) now true st).2.1.blobs c.id = _
    rw [saveCard_someBlob_blobs]
    simp

/-- Witness for C1's amended round-trip at a concrete card, payload and
time. -/
theorem save_get_roundtrip_witness :
    getCard (saveCard card0 (some [1, 2]) 5 true emptyStore).2.1 card0.id
        = some { card0 with audioBlobId := card0.id, updatedAt := 5 } ∧
    (3 : Int) ≤ ({ card0 with audioBlobId := card0.id, updatedAt := 5 } : Card).updatedAt ∧
    getBlob (saveCard card0 (some [1, 2]) 5 true emptyStore).2.1 card0.id = some [1, 2] ∧
    (saveCard card0 (some [1, 2]) 5 true emptyStore).2.2 = none :=
  save_get_roundtrip card0 [1, 2] emptyStore 5 3 (by decide)

/-- Claim C2 — save atomicity: for a `save(c, p)` with a payload supplied
(here against a store in which `c` is new), a successful commit persists
the card record and the payload record together; a failed commit rejects
with `TransactionAborted` and every subsequent `get`/`getPayload` of any
key observes the pre-save store state; and under either commit outcome the
card record and the payload record for `c.id` are present or absent
together — never one without the other. -/
theorem save_atomicity (c : Card) (p : AudioBytes) (now : Int) (st : Store)
    (hcard : getCard st c.id = none) (hblob : getBlob st c.id = none) :
    (getCard (saveCard c (some p) now true st).2.1 c.id
        = some (saveCard c (some p) now true st).1 ∧
      getBlob (saveCard c (some p) now true st).2.1 c.id = some p) ∧
    ((saveCard c (some p) now false st).2.2 = some .TransactionAborted ∧
      ∀ k, getCard (saveCard c (some p) now false st).2.1 k = getCard st k ∧
        getBlob (saveCard c (some p) now false st).2.1 k = getBlob st k) ∧
    (∀ commit : Bool,
      ((getCard (saveCard c (some p) now commit st).2.1 c.id).isSome ↔
        (getBlob (saveCard c (some p) now commit st).2.1 c.id).isSome)) := by
  refine ⟨⟨?_, ?_⟩, ⟨rfl, fun k => ⟨rfl, rfl⟩⟩, ?_⟩
  · show (saveCard c (some p) now true st).2.1.cards c.id = _
    rw [saveCard_someBlob_cards]
    simp [saveCard, runTx]
  · show (saveCard c (some p) now true st).2.1.blobs c.id = _
    rw [saveCard_someBlob_blobs]
    simp
  · intro commit
    cases commit
    · show ((st.cards c.id).isSome ↔ (st.blobs c.id).isSome)
      rw [show st.cards c.id = none from hcard, show st.blobs c.id = none from hblob]
      exact Iff.rfl
    · show ((saveCard c (some p) now true st).2.1.cards c.id).isSome ↔
        ((saveCard c (some p) now true st).2.1.blobs c.id).isSome
      rw [saveCard_someBlob_cards, saveCard_someBlob_blobs]
      simp

/-- Witness for C2 at a concrete new card against the empty store. -/
theorem save_atomicity_witness :
    (getCard (saveCard card0 (some [9]) 7 true emptyStore).2.1 card0.id
        = some (saveCard card0 (some [9]) 7 true emptyStore).1 ∧
      getBlob (saveCard card0 (some [9]) 7 true emptyStore).2.1 card0.id = some [9]) ∧
    ((saveCard card0 (some [9]) 7 false emptyStore).2.2 = some .TransactionAborted ∧
      ∀ k, getCard (saveCard card0 (some [9]) 7 false emptyStore).2.1 k
          = getCard emptyStore k ∧
        getBlob (saveCard card0 (some [9]) 7 false emptyStore).2.1 k
          = getBlob emptyStore k) ∧
    (∀ commit : Bool,
      ((getCard (saveCard card0 (some [9]) 7 commit emptyStore).2.1 card0.id).isSome ↔
        (getBlob (saveCard card0 (some [9]) 7 commit emptyStore).2.1 card0.id).isSome)) :=
  save_atomicity card0 [9] 7 emptyStore rfl rfl

/-- Claim C3 — deletion completeness and idempotence: after `delete(id)`
completes, both `get(id)` and `getPayload(id)` return "not found"; the
delete itself succeeds (no error, for any prior store state, including one
where the id never existed); and deleting the same id again succeeds
without changing the store at all. -/
theorem delete_completeness (i : String) (st : Store) :
    getCard (deleteCard i true st).1 i = none ∧
    getBlob (deleteCard i true st).1 i = none ∧
    (deleteCard i true st).2 = none ∧
    deleteCard i true (deleteCard i true st).1 = ((deleteCard i true st).1, none) := by
  refine ⟨?_, ?_, rfl, ?_⟩
  · show (deleteCard i true st).1.cards i = none
    rw [deleteCard_cards]; simp
  · show (deleteCard i true st).1.blobs i = none
    rw [deleteCard_blobs]; simp
  · have hc : (deleteCard i true (deleteCard i true st).1).1.cards
        = (deleteCard i true st).1.cards := by
      rw [deleteCard_cards i (deleteCard i true st).1]
      funext k
      by_cases hk : k = i
      · rw [if_pos hk, hk, deleteCard_cards i st]
        simp
      · simp [hk]
    have hb : (deleteCard i true (deleteCard i true st).1).1.blobs
        = (deleteCard i true st).1.blobs := by
      rw [deleteCard_blobs i (deleteCard i true st).1]
      funext k
      by_cases hk : k = i
      · rw [if_pos hk, hk, deleteCard_blobs i st]
        simp
      · simp [hk]
    have hst : (deleteCard i true (deleteCard i true st).1).1 = (deleteCard i true st).1 :=
      calc (deleteCard i true (deleteCard i true st).1).1
          = ⟨(deleteCard i true (deleteCard i true st).1).1.cards,
             (deleteCard i true (deleteCard i true st).1).1.blobs⟩ := rfl
        _ = ⟨(deleteCard i true st).1.cards, (deleteCard i true st).1.blobs⟩ := by
            rw [hc, hb]
        _ = (deleteCard i true st).1 := rfl
    calc deleteCard i true (deleteCard i true st).1
        = ((deleteCard i true (deleteCard i true st).1).1, none) := rfl
      _ = ((deleteCard i true st).1, none) := by rw [hst]

/-- Witness for C3: deleting a concrete id from a store that holds that
card and its payload empties both records, and re-deleting is a no-op
success. -/
theorem delete_completeness_witness :
    getCard (deleteCard "a" true (saveCard card0 (some [1]) 2 true emptyStore).2.1).1 "a"
        = none ∧
    getBlob (deleteCard "a" true (saveCard card0 (some [1]) 2 true emptyStore).2.1).1 "a"
        = none ∧
    (deleteCard "a" true (saveCard card0 (some [1]) 2 true emptyStore).2.1).2 = none ∧
    deleteCard "a" true
        (deleteCard "a" true (saveCard card0 (some [1]) 2 true emptyStore).2.1).1
      = ((deleteCard "a" true (saveCard card0 (some [1]) 2 true emptyStore).2.1).1, none) :=
  delete_completeness "a" (saveCard card0 (some [1]) 2 true emptyStore).2.1

/-- Claim C10 — save mutates its in-memory card argument: the card returned
by `saveCard` (the caller's object after the in-place mutation) carries
`updatedAt = now`, carries `audioBlobId = card.id` exactly when a payload
was supplied (its old value otherwise), agrees with the argument on every
other field, and is the same for both commit outcomes; when the
transaction aborts the persisted state is unchanged even though the
in-memory card was already mutated. -/
theorem save_mutates_argument (c : Card) (blob : Option AudioBytes) (now : Int)
    (commit : Bool) (st : Store) :
    (saveCard c blob now commit st).1.updatedAt = now ∧
    (saveCard c blob now commit st).1.audioBlobId
        = (blob.elim c.audioBlobId fun _ => c.id) ∧
    (saveCard c blob now commit st).1.id = c.id ∧
    (saveCard c blob now commit st).1.title = c.title ∧
    (saveCard c blob now commit st).1.source = c.source ∧
    (saveCard c blob now commit st).1.createdAt = c.createdAt ∧
    (saveCard c blob now commit st).1.trim = c.trim ∧
    (saveCard c blob now commit st).1.bpmTarget = c.bpmTarget ∧
    (saveCard c blob now commit st).1.comments = c.comments ∧
    (saveCard c blob now commit st).1.tags = c.tags ∧
    (saveCard c blob now commit st).1.mastery = c.mastery ∧
    (saveCard c blob now commit st).1.sessions = c.sessions ∧
    (saveCard c blob now commit st).1 = (saveCard c blob now true st).1 ∧
    (commit = false →
      (saveCard c blob now commit st).2.2 = some .TransactionAborted ∧
      (saveCard c blob now commit st).2.1 = st) := by
  cases blob with
  | none =>
      refine ⟨rfl, rfl, rfl, rfl, rfl, rfl, rfl, rfl, rfl, rfl, rfl, rfl, rfl, ?_⟩
      rintro rfl
      exact ⟨rfl, rfl⟩
  | some b =>
      refine ⟨rfl, rfl, rfl, rfl, rfl, rfl, rfl, rfl, rfl, rfl, rfl, rfl, rfl, ?_⟩
      rintro rfl
      exact ⟨rfl, rfl⟩

/-- Witness for C10 at a concrete card and payload, with the transaction
aborting: the in-memory card still gets the fresh `updatedAt` and
`audioBlobId` while the store is untouched. -/
theorem save_mutates_argument_witness :
    (saveCard card0 (some [4]) 9 false emptyStore).1.updatedAt = 9 ∧
    (saveCard card0 (some [4]) 9 false emptyStore).1.audioBlobId
        = ((some [4] : Option AudioBytes).elim card0.audioBlobId fun _ => card0.id) ∧
    (saveCard card0 (some [4]) 9 false emptyStore).1.id = card0.id ∧
    (saveCard card0 (some [4]) 9 false emptyStore).1.title = card0.title ∧
    (saveCard card0 (some [4]) 9 false emptyStore).1.source = card0.source ∧
    (saveCard card0 (some [4]) 9 false emptyStore).1.createdAt = card0.createdAt ∧
    (saveCard card0 (some [4]) 9 false emptyStore).1.trim = card0.trim ∧
    (saveCard card0 (some [4]) 9 false emptyStore).1.bpmTarget = card0.bpmTarget ∧
    (saveCard card0 (some [4]) 9 false emptyStore).1.comments = card0.comments ∧
    (saveCard card0 (some [4]) 9 false emptyStore).1.tags = card0.tags ∧
    (saveCard card0 (some [4]) 9 false emptyStore).1.mastery = card0.mastery ∧
    (saveCard card0 (some [4]) 9 false emptyStore).1.sessions = card0.sessions ∧
    (saveCard card0 (some [4]) 9 false emptyStore).1
        = (saveCard card0 (some [4]) 9 true emptyStore).1 ∧
    (false = false →
      (saveCard card0 (some [4]) 9 false emptyStore).2.2 = some .TransactionAborted ∧
      (saveCard card0 (some [4]) 9 false emptyStore).2.1 = emptyStore) :=
  save_mutates_argument card0 (some [4]) 9 false emptyStore

/-! ## Referential integrity (C4) -/

/-- The referential-integrity invariant of claim C4: a persisted card's
`audioBlobId` equals its key whenever a payload record exists under that
key, is empty when no payload exists, and no payload record exists without
a corresponding card record. -/
def StoreInv (st : Store) : Prop :=
  (∀ i c, st.cards i = some c → (st.blobs i).isSome → c.audioBlobId = i) ∧
  (∀ i c, st.cards i = some c → st.blobs i = none → c.audioBlobId = "") ∧
  (∀ i, (st.blobs i).isSome → (st.cards i).isSome)

/-- States reachable from the fresh database by committed `saveCard` and
`deleteCard` calls with arbitrary arguments. -/
inductive Reachable : Store → Prop
  | empty : Reachable emptyStore
  | save (c : Card) (blob : Option AudioBytes) (now : Int) (st : Store) :
      Reachable st → Reachable (saveCard c blob now true st).2.1
  | del (i : String) (st : Store) :
      Reachable st → Reachable (deleteCard i true st).1

/-- Claim C4 — referential integrity, as the claim states it: every state
reachable by any sequence of save and delete operations satisfies
`StoreInv`. This is false on the code: `saveCard` with no payload persists
the caller's `audioBlobId` unchecked, so a single payload-less save of a
card whose `audioBlobId` equals its id (with no payload in the store)
produces a card pointing at a missing payload. -/
theorem referential_integrity_claim_counterexample :
    ¬ (∀ st, Reachable st → StoreInv st) := by
  intro hclaim
  have hreach : Reachable (saveCard { card0 with audioBlobId := "a" } none 0 true
      emptyStore).2.1 :=
    Reachable.save { card0 with audioBlobId := "a" } none 0 emptyStore Reachable.empty
  have hinv := hclaim _ hreach
  have hcards : (saveCard { card0 with audioBlobId := "a" } none 0 true
      emptyStore).2.1.cards "a"
      = some { card0 with audioBlobId := "a", updatedAt := 0 } := by
    rw [saveCard_noBlob_cards]
    simp [card0]
  have hblobs : (saveCard { card0 with audioBlobId := "a" } none 0 true
      emptyStore).2.1.blobs "a" = none := by
    rw [saveCard_noBlob_blobs]
    rfl
  have := hinv.2.1 "a" { card0 with audioBlobId := "a", updatedAt := 0 } hcards hblobs
  simp [card0] at this

/-- States reachable from the fresh database when every payload-less
`saveCard` is given a card whose `audioBlobId` is consistent with the
current store — equal to the card's id when a payload exists under that id
and empty when none does (as holds for any card read back from a store
satisfying the invariant). Saves that supply a payload and deletes remain
unrestricted. -/
inductive ReachableConsistent : Store → Prop
  | empty : ReachableConsistent emptyStore
  | saveWithBlob (c : Card) (b : AudioBytes) (now : Int) (st : Store) :
      ReachableConsistent st →
      ReachableConsistent (saveCard c (some b) now true st).2.1
  | saveNoBlob (c : Card) (now : Int) (st : Store) :
      ReachableConsistent st →
      ((st.blobs c.id).isSome → c.audioBlobId = c.id) →
      (st.blobs c.id = none → c.audioBlobId = "") →
      ReachableConsistent (saveCard c none now true st).2.1
  | del (i : String) (st : Store) :
      ReachableConsistent st → ReachableConsistent (deleteCard i true st).1

/-- Claim C4 (amended) — referential integrity: in every state reachable
by save and delete operations in which each payload-less save is given a
card whose `audioBlobId` is consistent with the store it is saved into, a
card's `audioBlobId` equals its key exactly when a payload record exists
under that key (empty otherwise), and no payload record exists without a
corresponding card record. -/
theorem referential_integrity (st : Store) (h : ReachableConsistent st) :
    StoreInv st := by
  induction h with
  | empty =>
      exact ⟨fun i c hc => by simp [emptyStore] at hc,
        fun i c hc => by simp [emptyStore] at hc,
        fun i hb => by simp [emptyStore] at hb⟩
  | saveWithBlob c b now st _ ih =>
      refine ⟨fun i cc hc hb => ?_, fun i cc hc hb => ?_, fun i hb => ?_⟩
      · simp only [saveCard_someBlob_cards] at hc
        by_cases hi : i = c.id
        · rw [if_pos hi] at hc
          cases hc
          exact hi.symm
        · rw [if_neg hi] at hc
          simp only [saveCard_someBlob_blobs] at hb
          rw [if_neg hi] at hb
          exact ih.1 i cc hc hb
      · simp only [saveCard_someBlob_blobs] at hb
        by_cases hi : i = c.id
        · rw [if_pos hi] at hb
          cases hb
        · rw [if_neg hi] at hb
          simp only [saveCard_someBlob_cards] at hc
          rw [if_neg hi] at hc
          exact ih.2.1 i cc hc hb
      · simp only [saveCard_someBlob_cards]
        by_cases hi : i = c.id
        · rw [if_pos hi]
          rfl
        · rw [if_neg hi]
          simp only [saveCard_someBlob_blobs] at hb
          rw [if_neg hi] at hb
          exact ih.2.2 i hb
  | saveNoBlob c now st _ hsome hnone ih =>
      refine ⟨fun i cc hc hb => ?_, fun i cc hc hb => ?_, fun i hb => ?_⟩
      · simp only [saveCard_noBlob_cards] at hc
        simp only [saveCard_noBlob_blobs] at hb
        by_cases hi : i = c.id
        · rw [if_pos hi] at hc
          cases hc
          rw [hi] at hb
          rw [hsome hb]
          exact hi.symm
        · rw [if_neg hi] at hc
          exact ih.1 i cc hc hb
      · simp only [saveCard_noBlob_cards] at hc
        simp only [saveCard_noBlob_blobs] at hb
        by_cases hi : i = c.id
        · rw [if_pos hi] at hc
          cases hc
          rw [hi] at hb
          exact hnone hb
        · rw [if_neg hi] at hc
          exact ih.2.1 i cc hc hb
      · simp only [saveCard_noBlob_blobs] at hb
        simp only [saveCard_noBlob_cards]
        by_cases hi : i = c.id
        · rw [if_pos hi]
          rfl
        · rw [if_neg hi]
          exact ih.2.2 i hb
  | del j st _ ih =>
      refine ⟨fun i cc hc hb => ?_, fun i cc hc hb => ?_, fun i hb => ?_⟩
      · simp only [deleteCard_cards] at hc
        by_cases hi : i = j
        · rw [if_pos hi] at hc
          cases hc
        · rw [if_neg hi] at hc
          simp only [deleteCard_blobs] at hb
          rw [if_neg hi] at hb
          exact ih.1 i cc hc hb
      · simp only [deleteCard_cards] at hc
        by_cases hi : i = j
        · rw [if_pos hi] at hc
          cases hc
        · rw [if_neg hi] at hc
          simp only [deleteCard_blobs] at hb
          rw [if_neg hi] at hb
          exact ih.2.1 i cc hc hb
      · simp only [deleteCard_blobs] at hb
        by_cases hi : i = j
        · rw [if_pos hi] at hb
          cases hb
        · rw [if_neg hi] at hb
          simp only [deleteCard_cards]
          rw [if_neg hi]
          exact ih.2.2 i hb

/-- Witness for the amended C4 at a concrete two-step history: save a new
card with its payload, then delete a different id. -/
theorem referential_integrity_witness :
    StoreInv (deleteCard "z" true (saveCard card0 (some [1, 2]) 3 true emptyStore).2.1).1 :=
  referential_integrity _
    (ReachableConsistent.del "z" _
      (ReachableConsistent.saveWithBlob card0 [1, 2] 3 emptyStore
        ReachableConsistent.empty))

/-! ## Trim-window validation (C5) -/

/-- The card the add-view handler persists for valid inputs
`startSec = 0`, `endSec = 5`, id `"n"`, title `"t"`, at time 2 (after
`saveCard`'s in-place mutation). -/
def card5 : Card :=
  { id := "n"
    title := "t"
    source := none
    createdAt := 2
    updatedAt := 2
    audioBlobId := "n"
    trim := { startSec := 0, endSec := 5 }
    bpmTarget := none
    comments := none
    tags := []
    mastery := { circleOfFifths := "not_started", chromatic := "not_started" }
    sessions := [] }

/-- Claim C5 — trim-window invariant, as the claim states it: every card a
save handler accepts for persistence satisfies
`0 ≤ trim.startSec < trim.endSec`. This is false on the code: the
`saveMetaBtn` handler only checks `newEnd ≤ newStart`, so it accepts and
persists a trim with a negative `startSec`, refuted here at
`newStart = -1`, `newEnd = 1`. -/
theorem trim_invariant_claim_counterexample :
    ¬ (∀ (card : Card) (newStart newEnd : Rat) (newTitle : String)
        (newSource : Option String) (newBpm : Option Int) (newComments : Option String)
        (newTags : List String) (newMastery : Mastery) (now : Int) (commit : Bool)
        (st : Store) (c' : Card),
        (saveMetaBtn card newStart newEnd newTitle newSource newBpm newComments
            newTags newMastery now commit st).2.2 = some c' →
        0 ≤ c'.trim.startSec ∧ c'.trim.startSec < c'.trim.endSec) := by
  intro hclaim
  have h := hclaim card0 (-1) 1 "t" none none none []
    { circleOfFifths := "not_started", chromatic := "not_started" } 3 true emptyStore
    { card0 with trim := { startSec := -1, endSec := 1 }, updatedAt := 3 } (by decide)
  exact absurd h.1 (by decide)

/-- Claim C5 (amended) — trim validation: every card accepted for
persistence by the add-card handler satisfies
`0 ≤ trim.startSec < trim.endSec`; a card accepted by the metadata-edit
handler satisfies only `trim.startSec < trim.endSec` (its `startSec` may
be negative); and in both handlers a save attempt failing the handler's
check is rejected before any store mutation — the handler returns the
store unchanged, with no error and no card. -/
theorem trim_validation :
    (∀ (newId title : String) (source : Option String) (bpmTarget : Option Int)
        (comments : Option String) (tags : List String) (mastery : Mastery)
        (s e : Rat) (f : AudioBytes) (now : Int) (commit : Bool) (st : Store)
        (c' : Card),
      (addViewSaveBtn newId title source bpmTarget comments tags mastery s e f now
          commit st).2.2 = some c' →
      0 ≤ c'.trim.startSec ∧ c'.trim.startSec < c'.trim.endSec) ∧
    (∀ (newId title : String) (source : Option String) (bpmTarget : Option Int)
        (comments : Option String) (tags : List String) (mastery : Mastery)
        (s e : Rat) (f : AudioBytes) (now : Int) (commit : Bool) (st : Store),
      (s < 0 ∨ e ≤ 0 ∨ e ≤ s) →
      addViewSaveBtn newId title source bpmTarget comments tags mastery s e f now
          commit st = (st, none, none)) ∧
    (∀ (card : Card) (ns ne : Rat) (nt : String) (nsrc : Option String)
        (nbpm : Option Int) (ncom : Option String) (ntags : List String)
        (nmast : Mastery) (now : Int) (commit : Bool) (st : Store) (c' : Card),
      (saveMetaBtn card ns ne nt nsrc nbpm ncom ntags nmast now commit st).2.2
          = some c' →
      c'.trim.startSec < c'.trim.endSec) ∧
    (∀ (card : Card) (ns ne : Rat) (nt : String) (nsrc : Option String)
        (nbpm : Option Int) (ncom : Option String) (ntags : List String)
        (nmast : Mastery) (now : Int) (commit : Bool) (st : Store),
      ne ≤ ns →
      saveMetaBtn card ns ne nt nsrc nbpm ncom ntags nmast now commit st
        = (st, none, none)) := by
  refine ⟨?_, ?_, ?_, ?_⟩
  · intro newId title source bpmTarget comments tags mastery s e f now commit st c' hacc
    by_cases hcond : (s < 0 ∨ e ≤ 0 ∨ e ≤ s)
    · simp [addViewSaveBtn, hcond] at hacc
    · simp only [addViewSaveBtn, if_neg hcond, saveCard, Option.some.injEq] at hacc
      push_neg at hcond
      rw [← hacc]
      exact ⟨hcond.1, hcond.2.2⟩
  · intro newId title source bpmTarget comments tags mastery s e f now commit st hcond
    simp [addViewSaveBtn, hcond]
  · intro card ns ne nt nsrc nbpm ncom ntags nmast now commit st c' hacc
    by_cases hcond : ne ≤ ns
    · simp [saveMetaBtn, hcond] at hacc
    · simp only [saveMetaBtn, if_neg hcond, saveCard, Option.some.injEq] at hacc
      rw [← hacc]
      exact lt_of_not_le hcond
  · intro card ns ne nt nsrc nbpm ncom ntags nmast now commit st hcond
    simp [saveMetaBtn, hcond]

/-- Witness for the amended C5: the add handler accepts a valid trim and
the accepted card satisfies the full invariant; both handlers reject
concrete malformed trims leaving the store untouched. -/
theorem trim_validation_witness :
    (0 ≤ card5.trim.startSec ∧ card5.trim.startSec < card5.trim.endSec) ∧
    addViewSaveBtn "n" "t" none none none []
        { circleOfFifths := "not_started", chromatic := "not_started" } (-1) 5 [1] 2 true
        emptyStore = (emptyStore, none, none) ∧
    saveMetaBtn card0 5 5 "t" none none none []
        { circleOfFifths := "not_started", chromatic := "not_started" } 2 true emptyStore
      = (emptyStore, none, none) :=
  ⟨trim_validation.1 "n" "t" none none none []
      { circleOfFifths := "not_started", chromatic := "not_started" } 0 5 [1] 2 true
      emptyStore card5 (by decide),
    trim_validation.2.1 "n" "t" none none none []
      { circleOfFifths := "not_started", chromatic := "not_started" } (-1) 5 [1] 2 true
      emptyStore (by decide),
    trim_validation.2.2.2 card0 5 5 "t" none none none []
      { circleOfFifths := "not_started", chromatic := "not_started" } 2 true emptyStore
      (by decide)⟩

/-! ## Playback controller (C6–C8) -/

/-- Claim C6 — playback start validation: whenever `endT ≤ startT`
(including equality), starting playback fails with `InvalidRange` and
returns the handle exactly as it was — no seek, no playback begun, no
monitor registered. -/
theorem playback_start_invalid_range (h : AudioHandle) (startT endT : Rat)
    (hle : endT ≤ startT) :
    startPlayback h startT endT = (h, some .InvalidRange) := by
  unfold startPlayback
  rw [if_pos hle]

/-- Witness for C6 at the spec's concrete bounds (5,5) and (5,2). -/
theorem playback_start_invalid_range_witness :
    startPlayback handle0 5 5 = (handle0, some .InvalidRange) ∧
    startPlayback handle0 5 2 = (handle0, some .InvalidRange) :=
  ⟨playback_start_invalid_range handle0 5 5 (by decide),
    playback_start_invalid_range handle0 5 2 (by decide)⟩

theorem runTicks_cons (e : Rat) (h : AudioHandle) (p : Rat) (ps : List Rat) :
    runTicks e h (p :: ps) = runTicks e (tick e h p) ps := rfl

theorem runTicks_append (e : Rat) (h : AudioHandle) (xs ys : List Rat) :
    runTicks e h (xs ++ ys) = runTicks e (runTicks e h xs) ys :=
  List.foldl_append ..

theorem tick_lt (e : Rat) (h : AudioHandle) (p : Rat)
    (hm : h.monitorRegistered = true) (hp : p < e) :
    tick e h p = { h with currentTime := p } := by
  unfold tick onTimeStep
  simp [hm, not_le.mpr hp]

theorem tick_ge (e : Rat) (h : AudioHandle) (p : Rat)
    (hm : h.monitorRegistered = true) (hp : e ≤ p) :
    tick e h p
      = { h with currentTime := p, playing := false, monitorRegistered := false } := by
  unfold tick onTimeStep
  simp [hm, hp]

theorem tick_dead (e : Rat) (h : AudioHandle) (p : Rat)
    (hm : h.monitorRegistered = false) :
    tick e h p = { h with currentTime := p } := by
  unfold tick
  simp [hm]

theorem runTicks_dead (e : Rat) (ps : List Rat) : ∀ h : AudioHandle,
    h.monitorRegistered = false →
    (runTicks e h ps).playing = h.playing ∧
    (runTicks e h ps).monitorRegistered = false := by
  induction ps with
  | nil => exact fun h hm => ⟨rfl, hm⟩
  | cons p ps ih =>
      intro h hm
      rw [runTicks_cons, tick_dead e h p hm]
      exact ih { h with currentTime := p } hm

theorem runTicks_all_lt (e : Rat) (ps : List Rat) : ∀ h : AudioHandle,
    h.playing = true → h.monitorRegistered = true → (∀ q ∈ ps, q < e) →
    (runTicks e h ps).playing = true ∧
    (runTicks e h ps).monitorRegistered = true := by
  induction ps with
  | nil => exact fun h hp hm _ => ⟨hp, hm⟩
  | cons p ps ih =>
      intro h hp hm hlt
      rw [runTicks_cons, tick_lt e h p hm (hlt p (List.mem_cons_self p ps))]
      exact ih { h with currentTime := p } hp hm
        (fun q hq => hlt q (List.mem_cons_of_mem p hq))

theorem runTicks_pause_forces_boundary (e : Rat) (ps : List Rat) :
    ∀ h : AudioHandle, h.playing = true → h.monitorRegistered = true →
    (runTicks e h ps).playing = false → ∃ q ∈ ps, e ≤ q := by
  induction ps with
  | nil => exact fun h hp _ hstop => absurd (hp ▸ hstop) (by simp)
  | cons p ps ih =>
      intro h hp hm hstop
      by_cases hpe : e ≤ p
      · exact ⟨p, List.mem_cons_self p ps, hpe⟩
      · rw [runTicks_cons, tick_lt e h p hm (lt_of_not_le hpe)] at hstop
        obtain ⟨q, hq, hqe⟩ := ih { h with currentTime := p } hp hm hstop
        exact ⟨q, List.mem_cons_of_mem p hq, hqe⟩

/-- Claim C7 — playback boundary: for a playing, monitored handle and any
sequence of sampled positions, (i) splitting the samples at the first one
that reached `endSec`, the controller is still playing after the earlier
samples, pauses and deregisters exactly at that sample, and remains paused
through the rest of the run; (ii) if every sample is below `endSec` the
controller never pauses; (iii) ending up paused forces some sample
≥ `endSec` — the boundary is the only automatic exit from Playing. -/
theorem playback_boundary (e : Rat) (h : AudioHandle) (ps : List Rat)
    (hp : h.playing = true) (hm : h.monitorRegistered = true) :
    (∀ (before : List Rat) (q : Rat) (rest : List Rat),
      ps = before ++ q :: rest → (∀ r ∈ before, r < e) → e ≤ q →
      (runTicks e h before).playing = true ∧
      (runTicks e h (before ++ [q])).playing = false ∧
      (runTicks e h (before ++ [q])).monitorRegistered = false ∧
      (runTicks e h ps).playing = false) ∧
    ((∀ q ∈ ps, q < e) →
      (runTicks e h ps).playing = true ∧
      (runTicks e h ps).monitorRegistered = true) ∧
    ((runTicks e h ps).playing = false → ∃ q ∈ ps, e ≤ q) := by
  refine ⟨?_, fun hlt => runTicks_all_lt e ps h hp hm hlt,
    fun hstop => runTicks_pause_forces_boundary e ps h hp hm hstop⟩
  intro before q rest hsplit hbefore hq
  obtain ⟨hplay, hreg⟩ := runTicks_all_lt e before h hp hm hbefore
  have hstop : runTicks e h (before ++ [q])
      = { runTicks e h before with
          currentTime := q, playing := false, monitorRegistered := false } := by
    rw [runTicks_append, runTicks_cons]
    rw [tick_ge e (runTicks e h before) q hreg hq]
    rfl
  refine ⟨hplay, by rw [hstop], by rw [hstop], ?_⟩
  have hps : ps = (before ++ [q]) ++ rest := by
    rw [hsplit, List.append_assoc]
    rfl
  rw [hps, runTicks_append]
  have hdead := runTicks_dead e rest (runTicks e h (before ++ [q])) (by rw [hstop])
  rw [hdead.1, hstop]

/-- Witness for C7 on the same shape as the spec's sample run (two samples
below the boundary, one past it) with `endSec = 2`: still playing after
the below-boundary sample, paused and deregistered at the boundary
sample. -/
theorem playback_boundary_witness :
    (runTicks 2 { currentTime := 0, playing := true, monitorRegistered := true }
        [1]).playing = true ∧
    (runTicks 2 { currentTime := 0, playing := true, monitorRegistered := true }
        ([1] ++ [3])).playing = false ∧
    (runTicks 2 { currentTime := 0, playing := true, monitorRegistered := true }
        ([1] ++ [3])).monitorRegistered = false ∧
    (runTicks 2 { currentTime := 0, playing := true, monitorRegistered := true }
        [1, 3]).playing = false :=
  (playback_boundary 2 { currentTime := 0, playing := true, monitorRegistered := true }
      [1, 3] rfl rfl).1 [1] 3 [] rfl (by decide) (by decide)

/-- Claim C8 — monitor quiescence after terminal states: once the monitor
is deregistered (boundary pause or cancel), no later tick changes the
playing state or re-registers the monitor, and cancelling again is an
error-free no-op that returns the handle unchanged (cancel is idempotent). -/
theorem monitor_quiescence (e : Rat) (h : AudioHandle) (ps : List Rat)
    (hm : h.monitorRegistered = false) :
    (runTicks e h ps).playing = h.playing ∧
    (runTicks e h ps).monitorRegistered = false ∧
    cancelPlayback h = h ∧
    cancelPlayback (cancelPlayback h) = cancelPlayback h := by
  obtain ⟨hplay, hreg⟩ := runTicks_dead e ps h hm
  refine ⟨hplay, hreg, ?_, rfl⟩
  cases h with
  | mk ct pl mr =>
      cases hm
      rfl

/-- Witness for C8 on a cancelled-but-still-playing handle: two further
ticks past the boundary change nothing, and cancelling again is the
identity. -/
theorem monitor_quiescence_witness :
    (runTicks 2 handleCancelled [5, 9]).playing = handleCancelled.playing ∧
    (runTicks 2 handleCancelled [5, 9]).monitorRegistered = false ∧
    cancelPlayback handleCancelled = handleCancelled ∧
    cancelPlayback (cancelPlayback handleCancelled) = cancelPlayback handleCancelled :=
  monitor_quiescence 2 handleCancelled [5, 9] rfl

/-! ## Max-tempo aggregate (C9) -/

theorem foldl_max_exchange (xs : List Int) : ∀ a b : Int,
    xs.foldl max (max a b) = max a (xs.foldl max b) := by
  induction xs with
  | nil => exact fun a b => rfl
  | cons x xs ih =>
      intro a b
      show xs.foldl max (max (max a b) x) = max a (xs.foldl max (max b x))
      rw [max_assoc]
      exact ih a (max b x)

theorem le_foldl_max (xs : List Int) : ∀ b : Int, b ≤ xs.foldl max b := by
  induction xs with
  | nil => exact fun b => le_refl b
  | cons x xs ih => exact fun b => le_trans (le_max_left b x) (ih (max b x))

theorem maxTempo_go (ss : List Session) : ∀ m : Int, 0 ≤ m →
    ss.foldl
      (fun maxTempo sess =>
        let localMax := sess.temposAchieved.foldl max 0
        if localMax > maxTempo then localMax else maxTempo) m
      = ((ss.map Session.temposAchieved).flatten).foldl max m := by
  induction ss with
  | nil => exact fun m _ => rfl
  | cons s ss ih =>
      intro m hm
      show ss.foldl _
          (if s.temposAchieved.foldl max 0 > m then s.temposAchieved.foldl max 0 else m)
        = ((s.temposAchieved ++ (ss.map Session.temposAchieved).flatten)).foldl max m
      have hstep : (if s.temposAchieved.foldl max 0 > m then s.temposAchieved.foldl max 0
            else m)
          = max m (s.temposAchieved.foldl max 0) := by
        by_cases hgt : s.temposAchieved.foldl max 0 > m
        · rw [if_pos hgt, max_eq_right (le_of_lt hgt)]
        · rw [if_neg hgt, max_eq_left (le_of_not_lt hgt)]
      have hseed : s.temposAchieved.foldl max m = max m (s.temposAchieved.foldl max 0) := by
        have hx := foldl_max_exchange s.temposAchieved m 0
        rwa [max_eq_left hm] at hx
      rw [hstep, List.foldl_append, hseed]
      exact ih (max m (s.temposAchieved.foldl max 0))
        (le_trans (le_foldl_max s.temposAchieved 0) (le_max_right m _))

theorem maxTempoOf_eq_foldl (ss : List Session) :
    maxTempoOf ss = ((ss.map Session.temposAchieved).flatten).foldl max 0 :=
  maxTempo_go ss 0 (le_refl 0)

theorem maxTempoSpec_eq_foldl (ss : List Session)
    (hnn : ∀ x ∈ (ss.map Session.temposAchieved).flatten, 0 ≤ x) :
    maxTempoSpec ss = ((ss.map Session.temposAchieved).flatten).foldl max 0 := by
  unfold maxTempoSpec
  cases hfl : (ss.map Session.temposAchieved).flatten with
  | nil => rfl
  | cons y ys =>
      have hy : 0 ≤ y := by
        refine hnn y ?_
        rw [hfl]
        exact List.mem_cons_self y ys
      show (some (ys.foldl max y)).getD 0 = (y :: ys).foldl max 0
      show ys.foldl max y = ys.foldl max (max 0 y)
      rw [max_eq_right hy]

/-- Claim C9 — max-tempo aggregate: for sessions whose recorded tempos are
positive (as the data model requires), the value computed in
`renderCardList` equals the maximum over the union of all `temposAchieved`
sequences of all sessions, and equals 0 when there are no sessions or no
recorded tempos. -/
theorem max_tempo_aggregate (ss : List Session)
    (hpos : ∀ s ∈ ss, ∀ t ∈ s.temposAchieved, 0 < t) :
    maxTempoOf ss = maxTempoSpec ss ∧
    ((ss.map Session.temposAchieved).flatten = [] → maxTempoOf ss = 0) := by
  have hnn : ∀ x ∈ (ss.map Session.temposAchieved).flatten, 0 ≤ x := by
    intro x hx
    rw [List.mem_flatten] at hx
    obtain ⟨l, hl, hxl⟩ := hx
    rw [List.mem_map] at hl
    obtain ⟨s, hs, rfl⟩ := hl
    exact le_of_lt (hpos s hs x hxl)
  constructor
  · rw [maxTempoOf_eq_foldl, maxTempoSpec_eq_foldl ss hnn]
  · intro hempty
    rw [maxTempoOf_eq_foldl, hempty]
    rfl

/-- The spec's example sessions: `temposAchieved` lists
`[100, 120]`, `[90]`, `[]`. -/
def sessions123 : List Session :=
  [{ id := "s1", cardId := "a", date := 1, mode := "free",
     temposAchieved := [100, 120], errorRate := 0, notes := none },
   { id := "s2", cardId := "a", date := 2, mode := "chromatic",
     temposAchieved := [90], errorRate := 0, notes := none },
   { id := "s3", cardId := "a", date := 3, mode := "circleOfFifths",
     temposAchieved := [], errorRate := 0, notes := none }]

/-- Witness for C9 at the spec's example: the computed aggregate agrees
with the spec-side maximum and evaluates to 120; the empty session list
yields 0. -/
theorem max_tempo_aggregate_witness :
    (maxTempoOf sessions123 = maxTempoSpec sessions123 ∧ maxTempoOf sessions123 = 120) ∧
    maxTempoOf [] = 0 :=
  ⟨⟨(max_tempo_aggregate sessions123 (by decide)).1, by decide⟩,
    (max_tempo_aggregate [] (by decide)).2 (by decide)⟩

end Phrasecards
